import Mathlib

/-
Shallow embedding of the shark-attack cleaning pipeline (src/cleaning.py).

Modelling conventions:
* A pandas cell is a `Val`: missing (NaN/NA), a string, an integer, or a
  non-integral number (modelled exactly as a rational, since the inputs that
  matter are short decimal literals).
* A DataFrame is a `Table`: an ordered list of column names plus an ordered
  list of rows; each row is a total function from column name to `Val`, and
  only names listed in `cols` are considered present.  Reading a missing
  column (pandas KeyError) and the unsafe `astype` cast are modelled by
  returning `none` from the stage.
* Python string operations (strip / upper / lower / substring membership)
  are re-implemented over `List Char` so that their algebraic properties can
  be proved; they agree with Python on the ASCII data the pipeline handles.
* `fuzzywuzzy.process.extractOne(query, candidates, score_cutoff)` is an
  external library call; it is modelled by an abstract `Matcher` parameter
  returning the best candidate at or above the cutoff, or `none`.
-/

namespace SharkAttack

/-- A pandas cell value. -/
inductive Val where
  | na : Val
  | s (x : String) : Val
  | i (n : Int) : Val
  | f (q : Rat) : Val
deriving DecidableEq, Repr

/-- pd.isna. -/
def Val.isna : Val → Bool
  | .na => true
  | _ => false

/-- Python whitespace characters stripped by str.strip (ASCII range). -/
def pyWs (c : Char) : Bool :=
  c == ' ' || c == Char.ofNat 9 || c == Char.ofNat 10 || c == Char.ofNat 13 ||
  c == Char.ofNat 11 || c == Char.ofNat 12

/-- ASCII lowercase-to-uppercase pairs, used by the str.upper model. -/
def upPairs : List (Char × Char) :=
  [('a','A'), ('b','B'), ('c','C'), ('d','D'), ('e','E'), ('f','F'), ('g','G'),
   ('h','H'), ('i','I'), ('j','J'), ('k','K'), ('l','L'), ('m','M'), ('n','N'),
   ('o','O'), ('p','P'), ('q','Q'), ('r','R'), ('s','S'), ('t','T'), ('u','U'),
   ('v','V'), ('w','W'), ('x','X'), ('y','Y'), ('z','Z')]

/-- ASCII uppercase-to-lowercase pairs, used by the str.lower model. -/
def loPairs : List (Char × Char) :=
  [('A','a'), ('B','b'), ('C','c'), ('D','d'), ('E','e'), ('F','f'), ('G','g'),
   ('H','h'), ('I','i'), ('J','j'), ('K','k'), ('L','l'), ('M','m'), ('N','n'),
   ('O','o'), ('P','p'), ('Q','q'), ('R','r'), ('S','s'), ('T','t'), ('U','u'),
   ('V','v'), ('W','w'), ('X','x'), ('Y','y'), ('Z','z')]

/-- Uppercase one character (ASCII model of Python str.upper per char). -/
def upChar (c : Char) : Char :=
  match upPairs.find? (fun p => p.1 == c) with
  | some p => p.2
  | none => c

/-- Lowercase one character (ASCII model of Python str.lower per char). -/
def loChar (c : Char) : Char :=
  match loPairs.find? (fun p => p.1 == c) with
  | some p => p.2
  | none => c

/-- Python str.upper. -/
def pyUpper (x : String) : String := ⟨x.data.map upChar⟩

/-- Python str.lower. -/
def pyLower (x : String) : String := ⟨x.data.map loChar⟩

/-- Strip leading and trailing whitespace from a character list. -/
def stripL (l : List Char) : List Char :=
  ((l.dropWhile pyWs).reverse.dropWhile pyWs).reverse

/-- Python str.strip(). -/
def pyStrip (x : String) : String := ⟨stripL x.data⟩

/-- Is the first list a prefix of the second (by character equality)? -/
def isPrefixL : List Char → List Char → Bool
  | [], _ => true
  | _ :: _, [] => false
  | a :: as, b :: bs => a == b && isPrefixL as bs

/-- Does the first list occur as a contiguous sublist of the second? -/
def hasInfix (n : List Char) : List Char → Bool
  | [] => n.isEmpty
  | c :: t => isPrefixL n (c :: t) || hasInfix n (t)

/-- Python substring test: `needle in hay`. -/
def containsSub (hay needle : String) : Bool := hasInfix needle.data hay.data

/-- Numeric value of a digit list (most significant first). -/
def digitsToNat (l : List Char) : Nat :=
  l.foldl (fun a c => a * 10 + (c.toNat - 48)) 0

/-- Parse an unsigned decimal literal (digits, optional dot and digits). -/
def parsePos (l : List Char) : Option Rat :=
  let ip := l.takeWhile Char.isDigit
  let rest := l.dropWhile Char.isDigit
  match rest with
  | [] => if ip.isEmpty then none else some ((digitsToNat ip : Nat) : Rat)
  | c :: fr =>
    if c = Char.ofNat 46 ∧ fr.all Char.isDigit ∧ (ip.isEmpty = false ∨ fr.isEmpty = false)
    then some (mkRat (digitsToNat ip * 10 ^ fr.length + digitsToNat fr) (10 ^ fr.length))
    else none

/-- Parse a signed decimal literal, as Python float() accepts for the
decimal forms appearing in this data set. -/
def parseNum (x : String) : Option Rat :=
  match x.data with
  | [] => none
  | c :: rest =>
    if c = Char.ofNat 45 then (parsePos rest).map Neg.neg
    else if c = Char.ofNat 43 then parsePos rest
    else parsePos (c :: rest)

/-- pd.to_numeric with errors equal to coerce, applied to one cell: numbers
pass through, parseable strings become numbers, everything else NaN. -/
def toNumericV : Val → Val
  | .na => .na
  | .i n => .i n
  | .f q => .f q
  | .s x =>
    match parseNum (pyStrip x) with
    | some q => .f q
    | none => .na

/-- One cell of Series.astype with the nullable Int64 dtype: missing stays
missing, integers pass, a fractional number cannot be safely cast (pandas
raises TypeError), strings cannot be cast. -/
def astypeInt64V : Val → Option Val
  | .na => some .na
  | .i n => some (.i n)
  | .f q => if q.den = 1 then some (.i q.num) else none
  | .s _ => none

/-- Python str() of a cell, as used before substring matching. -/
def pyStr : Val → String
  | .na => "nan"
  | .s x => x
  | .i n => toString n
  | .f q => toString q

/-- Series.str.strip() on one cell: non-strings become NaN. -/
def stripV : Val → Val
  | .s x => .s (pyStrip x)
  | _ => .na

/-- Series.str.upper() on one cell: non-strings become NaN. -/
def upperV : Val → Val
  | .s x => .s (pyUpper x)
  | _ => .na

/-- Series.replace with a dict: exact whole-cell matching, first matching
key wins (dict keys are distinct in the source). -/
def replaceDict (m : List (Val × Val)) (v : Val) : Val :=
  match m.find? (fun p => decide (p.1 = v)) with
  | some p => p.2
  | none => v

/-- A DataFrame: ordered column names and ordered rows.  A row is a total
function from column name to cell; presence is governed by `cols`. -/
structure Table where
  cols : List String
  rows : List (String → Val)

/-- Column read: `none` models the pandas KeyError on a missing column. -/
def getCol (t : Table) (c : String) : Option (List Val) :=
  if c ∈ t.cols then some (t.rows.map (fun r => r c)) else none

/-- Overwrite one field of a row. -/
def setIn (c : String) (v : Val) (r : String → Val) : String → Val :=
  fun x => if x = c then v else r x

/-- Build a concrete row from an association list (absent names read NaN). -/
def mkRow (ps : List (String × Val)) : String → Val :=
  fun c => ((ps.find? (fun p => p.1 == c)).map (fun p => p.2)).getD Val.na

/-- Drop columns, absence ignored (DataFrame.drop with errors ignore). -/
def dropColsT (cs : List String) (t : Table) : Table :=
  ⟨t.cols.filter (fun c => decide (c ∉ cs)), t.rows⟩

/-- Column assignment df[c] = series computed per row: overwrites in place
or appends a new column at the end. -/
def setColByRow (c : String) (g : (String → Val) → Val) (t : Table) : Table :=
  ⟨if c ∈ t.cols then t.cols else t.cols ++ [c],
   t.rows.map (fun r => setIn c (g r) r)⟩

/-- Guarded per-row column update: requires the `need` columns to be
present (pandas KeyError otherwise), then assigns column `c` from each row. -/
def mapColWith (c : String) (need : List String) (g : (String → Val) → Val)
    (t : Table) : Option Table :=
  if need.all (fun x => decide (x ∈ t.cols)) then
    some ⟨t.cols, t.rows.map (fun r => setIn c (g r) r)⟩
  else none

/-- Per-cell update of a single column. -/
def mapCol (c : String) (g : Val → Val) (t : Table) : Option Table :=
  if c ∈ t.cols then
    some ⟨t.cols, t.rows.map (fun r => setIn c (g (r c)) r)⟩
  else none

/-- Option-valued map over a list (all-or-nothing, in order). -/
def mapO {α β : Type} (g : α → Option β) : List α → Option (List β)
  | [] => some []
  | a :: l =>
    match g a, mapO g l with
    | some b, some l2 => some (b :: l2)
    | _, _ => none

/-- Abstract fuzzy matcher: query, candidate vocabulary, score cutoff; the
best candidate at or above the cutoff, else `none`.  Models the external
fuzzywuzzy process.extractOne call (the scoring algorithm is a library
detail outside this repository). -/
def Matcher : Type := String → List String → Nat → Option String

/-- A matcher that never finds a candidate at or above the cutoff. -/
def extNone : Matcher := fun _ _ _ => none

/-! ### Stage: clean_type -/

/-- The replace dict of clean_type (the pd.NA key matches missing cells). -/
def typeMap : List (Val × Val) :=
  [(.s "?", .s "Unconfirmed"),
   (.s "Unverified", .s "Unconfirmed"),
   (.s "Invalid", .s "Unconfirmed"),
   (.s "Questionable", .s "Unconfirmed"),
   (.na, .s "Unconfirmed"),
   (.s "unprovoked", .s "Unprovoked"),
   (.s " Provoked", .s "Provoked"),
   (.s "Boat", .s "Watercraft")]

/-- Per-cell transform of clean_type. -/
def gType (v : Val) : Val := replaceDict typeMap v

/-- clean_type: replace noisy Type labels. -/
def clean_type (t : Table) : Option Table := mapCol "Type" gType t

/-! ### Stage: clean_sex -/

/-- The replace dict of clean_sex. -/
def sexMap : List (Val × Val) :=
  [(.s "LLI", .s "M"), (.s "M X 2", .s "M"), (.s "N", .s "M"), (.s ".", .na)]

/-- Per-cell transform of clean_sex: strip, upper, replace the lone dot
with NaN, then the dict replace. -/
def gSex (v : Val) : Val :=
  replaceDict sexMap (if upperV (stripV v) = .s "." then .na else upperV (stripV v))

/-- clean_sex: normalize the Sex column. -/
def clean_sex (t : Table) : Option Table := mapCol "Sex" gSex t

/-! ### Stage: clean_age -/

/-- Per-cell transform of clean_age: to_numeric coercion followed by the
astype Int64 cast, which can fail (pandas raises). -/
def gAge (v : Val) : Option Val := astypeInt64V (toNumericV v)

/-- Per-row transform of clean_age. -/
def ageRowFn (r : String → Val) : Option (String → Val) :=
  (gAge (r "Age")).map (fun v => setIn "Age" v r)

/-- clean_age: Age to nullable integer; `none` models the raised error. -/
def clean_age (t : Table) : Option Table :=
  if "Age" ∈ t.cols then (mapO ageRowFn t.rows).map (Table.mk t.cols)
  else none

/-! ### Stage: drop_useless_columns -/

/-- The fixed list of dropped columns. -/
def uselessCols : List String :=
  ["Case Number", "Name", "Source", "pdf", "href formula", "href",
   "Case Number.1", "original order", "Unnamed: 21", "Unnamed: 22",
   "Location", "Time"]

/-- drop_useless_columns (errors ignore: absence tolerated). -/
def drop_useless_columns (t : Table) : Table := dropColsT uselessCols t

/-! ### Stage: clean_date -/

/-- The regex alternatives of the month extraction, in source order. -/
def monthTokens : List String :=
  ["January", "February", "March", "April", "May", "June", "July", "August",
   "September", "October", "November", "December",
   "Jan", "Feb", "Mar", "Apr", "May", "Jun", "Jul", "Aug", "Sep", "Oct",
   "Nov", "Dec"]

/-- The abbreviation-to-full-name replace map for the Month column. -/
def monthMap : List (Val × Val) :=
  [(.s "Jan", .s "January"), (.s "Feb", .s "February"), (.s "Mar", .s "March"),
   (.s "Apr", .s "April"), (.s "Jun", .s "June"), (.s "Jul", .s "July"),
   (.s "Aug", .s "August"), (.s "Sep", .s "September"), (.s "Oct", .s "October"),
   (.s "Nov", .s "November"), (.s "Dec", .s "December")]

/-- Leftmost regex-alternation match: at each position, the first listed
token matching there wins (Python re.search semantics). -/
def findFirstToken (ts : List String) : List Char → Option String
  | [] => none
  | c :: rest =>
    match ts.find? (fun tok => isPrefixL tok.data (c :: rest)) with
    | some tok => some tok
    | none => findFirstToken ts rest

/-- Month cell from a Date cell: str.extract of the month alternation, then
the abbreviation replace; non-strings and misses give NaN. -/
def monthOf : Val → Val
  | .s x =>
    match findFirstToken monthTokens x.data with
    | some m => replaceDict monthMap (.s m)
    | none => .na
  | _ => .na

/-- First 4-consecutive-digit substring (regex d{4}). -/
def find4digits : List Char → Option String
  | c1 :: c2 :: c3 :: c4 :: rest =>
    if c1.isDigit && c2.isDigit && c3.isDigit && c4.isDigit then
      some ⟨[c1, c2, c3, c4]⟩
    else find4digits (c2 :: c3 :: c4 :: rest)
  | _ => none

/-- str.extract of a 4-digit group from the Date cell. -/
def extractYearText : Val → Val
  | .s x =>
    match find4digits x.data with
    | some d => .s d
    | none => .na
  | _ => .na

/-- The Fixed Year cell before the Int64 cast: numeric Year, with zero
invalidated, falling back to the 4-digit extract of the Date text. -/
def fixedYearRaw (yearV dateV : Val) : Val :=
  let fy := toNumericV yearV
  let fy2 := if fy = .i 0 ∨ fy = .f 0 then .na else fy
  match fy2 with
  | .na => toNumericV (extractYearText dateV)
  | v => v

/-- The column list after clean_date: Month and the Fixed Year scratch
column appended when new, Year and Date dropped, Fixed Year renamed Year. -/
def dateCols (cols : List String) : List String :=
  (((if "Month" ∈ cols then cols else cols ++ ["Month"]) ++
      (if "Fixed Year" ∈ (if "Month" ∈ cols then cols else cols ++ ["Month"])
       then [] else ["Fixed Year"])).filter
    (fun c => decide (c ∉ (["Year", "Date"] : List String)))).map
    (fun c => if c = "Fixed Year" then "Year" else c)

/-- The per-row transform of clean_date; `none` models the failed Int64
cast of a fractional derived year. -/
def dateRowFn (r : String → Val) : Option (String → Val) :=
  (astypeInt64V (fixedYearRaw (r "Year") (r "Date"))).map (fun fy =>
    setIn "Month" (monthOf (r "Date")) (setIn "Year" fy (setIn "Fixed Year" fy r)))

/-- clean_date: derive Month and Year, drop Date and the raw Year, rename
the derived year to Year.  `none` models a KeyError or a failed cast. -/
def clean_date (t : Table) : Option Table :=
  if "Date" ∈ t.cols ∧ "Year" ∈ t.cols then
    (mapO dateRowFn t.rows).map (Table.mk (dateCols t.cols))
  else none

/-! ### Stage: clean_state -/

/-- The fixed per-country subdivision vocabularies. -/
def stateMappingsGet : Val → List String
  | .s "United States" =>
    ["Alabama", "Alaska", "Arizona", "Arkansas", "California", "Colorado",
     "Connecticut", "Delaware", "Florida", "Georgia", "Hawaii", "Idaho",
     "Illinois", "Indiana", "Iowa", "Kansas", "Kentucky", "Louisiana", "Maine",
     "Maryland", "Massachusetts", "Michigan", "Minnesota", "Mississippi",
     "Missouri", "Montana", "Nebraska", "Nevada", "New Hampshire", "New Jersey",
     "New Mexico", "New York", "North Carolina", "North Dakota", "Ohio",
     "Oklahoma", "Oregon", "Pennsylvania", "Rhode Island", "South Carolina",
     "South Dakota", "Tennessee", "Texas", "Utah", "Vermont", "Virginia",
     "Washington", "West Virginia", "Wisconsin", "Wyoming"]
  | .s "Australia" =>
    ["New South Wales", "Victoria", "Queensland", "Western Australia",
     "South Australia", "Tasmania", "Northern Territory",
     "Australian Capital Territory"]
  | .s "Canada" =>
    ["Alberta", "British Columbia", "Manitoba", "New Brunswick",
     "Newfoundland and Labrador", "Northwest Territories", "Nova Scotia",
     "Nunavut", "Ontario", "Prince Edward Island", "Quebec", "Saskatchewan",
     "Yukon"]
  | .s "Brazil" =>
    ["Acre", "Alagoas", "Amapá", "Amazonas", "Bahia", "Ceará",
     "Distrito Federal", "Espírito Santo", "Goiás", "Maranhão", "Mato Grosso",
     "Mato Grosso do Sul", "Minas Gerais", "Pará", "Paraíba", "Paraná",
     "Pernambuco", "Piauí", "Rio de Janeiro", "Rio Grande do Norte",
     "Rio Grande do Sul", "Rondônia", "Roraima", "Santa Catarina", "São Paulo",
     "Sergipe", "Tocantins"]
  | _ => []

/-- match_state: per-row fuzzy normalization of State, gated by Country. -/
def match_state (ext : Matcher) (cutoff : Nat) (stateV countryV : Val) : Val :=
  if stateV.isna || countryV.isna then stateV
  else
    let st := pyStrip (pyStr stateV)
    if st = "" then .s st
    else
      let cs := stateMappingsGet countryV
      if cs = [] then .s st
      else
        match ext st cs cutoff with
        | some m => .s m
        | none => .s st

/-- clean_state: row-wise State normalization (needs State and Country). -/
def clean_state (ext : Matcher) (cutoff : Nat) (t : Table) : Option Table :=
  mapColWith "State" ["State", "Country"]
    (fun r => match_state ext cutoff (r "State") (r "Country")) t

/-! ### Stage: clean_country -/

/-- The exact replacement table applied before fuzzy country matching. -/
def countryReplacements : List (String × String) :=
  [("USA", "United States"), ("AUSTRALIA", "Australia"),
   ("CEYLON (SRI LANKA)", "Sri Lanka"), ("SOUTH AFRICA", "South Africa")]

/-- match_country: strip, exact alias table, then fuzzy matching against the
country vocabulary (supplied by the external pycountry list). -/
def match_country (ext : Matcher) (countryNames : List String) (cutoff : Nat)
    (v : Val) : Val :=
  if v.isna then v
  else
    let n := pyStrip (pyStr v)
    if n = "" then .s n
    else
      match countryReplacements.find? (fun p => p.1 == n) with
      | some p => .s p.2
      | none =>
        match ext n countryNames cutoff with
        | some m => .s m
        | none => .s n

/-- clean_country: per-cell Country normalization. -/
def clean_country (ext : Matcher) (countryNames : List String) (cutoff : Nat)
    (t : Table) : Option Table :=
  mapCol "Country" (match_country ext countryNames cutoff) t

/-! ### Stage: clean_activity -/

/-- The ordered activity category keyword lists. -/
def activityMap : List (String × List String) :=
  [("Swimming", ["swimming", "bathing", "wading", "floating"]),
   ("Surfing", ["surfing", "surf", "bodyboarding", "boogie boarding"]),
   ("Diving", ["diving", "snorkeling", "free diving", "scuba"]),
   ("Fishing", ["fishing", "spearfishing", "angling"]),
   ("Boating", ["boating", "sailing", "kayaking", "canoeing"]),
   ("Other", ["walking", "standing", "fell overboard", "unknown"])]

/-- All keywords flattened, in declaration order. -/
def allKeywords : List String := activityMap.flatMap (fun p => p.2)

/-- normalize_activity: keyword categories, fuzzy fallback at cutoff 60,
else Other; null input gives Unknown. -/
def normalize_activity (ext : Matcher) (v : Val) : String :=
  if v.isna then "Unknown"
  else
    let a := pyStrip (pyLower (pyStr v))
    match activityMap.find? (fun p => p.2.any (fun k => containsSub a k)) with
    | some p => p.1
    | none =>
      match ext a allKeywords 60 with
      | some mk =>
        match activityMap.find? (fun p => decide (mk ∈ p.2)) with
        | some p => p.1
        | none => "Other"
      | none => "Other"

/-- clean_activity. -/
def clean_activity (ext : Matcher) (t : Table) : Option Table :=
  mapCol "Activity" (fun v => .s (normalize_activity ext v)) t

/-! ### Stage: clean_species -/

/-- The canonical species vocabulary for fuzzy matching. -/
def shark_species : List String :=
  ["Great White Shark", "Tiger Shark", "Bull Shark", "Blacktip Shark",
   "Sandbar Shark", "Nurse Shark", "Lemon Shark", "Hammerhead Shark",
   "Mako Shark", "Blue Shark", "Sand Tiger Shark", "Reef Shark",
   "Wobbegong Shark", "Thresher Shark", "Dusky Shark", "Spinner Shark",
   "Silky Shark", "Bronze Whaler Shark", "Galapagos Shark", "Grey Reef Shark",
   "Blacktip Reef Shark", "Whitetip Reef Shark", "Caribbean Reef Shark",
   "Silvertip Shark", "Oceanic Whitetip Shark", "Porbeagle Shark",
   "Basking Shark", "Whale Shark", "Goblin Shark", "Angel Shark",
   "Leopard Shark", "Dogfish Shark", "Sevengill Shark", "Sixgill Shark"]

/-- The invalidity terms. -/
def invalid_terms : List String :=
  ["invalid", "questionable", "not confirmed", "unconfirmed", "not stated"]

/-- The ordered substring-to-canonical-name dict (python dict insertion
order; the duplicate sand tiger key re-assigns the same value and keeps its
first position, so it is listed once). -/
def name_mappings : List (String × String) :=
  [("white shark", "Great White Shark"),
   ("great white", "Great White Shark"),
   ("bull shark", "Bull Shark"),
   ("tiger shark", "Tiger Shark"),
   ("blacktip shark", "Blacktip Shark"),
   ("sand tiger", "Sand Tiger Shark"),
   ("wobbegong", "Wobbegong Shark"),
   ("hammerhead", "Hammerhead Shark"),
   ("mako", "Mako Shark"),
   ("blue shark", "Blue Shark"),
   ("nurse shark", "Nurse Shark"),
   ("lemon shark", "Lemon Shark"),
   ("spinner shark", "Spinner Shark"),
   ("dusky shark", "Dusky Shark"),
   ("silky shark", "Silky Shark"),
   ("bronze whaler", "Bronze Whaler Shark"),
   ("galapagos shark", "Galapagos Shark"),
   ("grey reef shark", "Grey Reef Shark"),
   ("blacktip reef shark", "Blacktip Reef Shark"),
   ("whitetip reef shark", "Whitetip Reef Shark"),
   ("caribbean reef shark", "Caribbean Reef Shark"),
   ("silvertip shark", "Silvertip Shark"),
   ("oceanic whitetip shark", "Oceanic Whitetip Shark"),
   ("porbeagle shark", "Porbeagle Shark"),
   ("basking shark", "Basking Shark"),
   ("whale shark", "Whale Shark"),
   ("goblin shark", "Goblin Shark"),
   ("angel shark", "Angel Shark"),
   ("leopard shark", "Leopard Shark"),
   ("dogfish shark", "Dogfish Shark"),
   ("sevengill shark", "Sevengill Shark"),
   ("sixgill shark", "Sixgill Shark"),
   ("reef shark", "Reef Shark"),
   ("sandbar shark", "Sandbar Shark"),
   ("thresher shark", "Thresher Shark"),
   ("reef", "Reef Shark"),
   ("sand tiger shark", "Sand Tiger Shark"),
   ("unconfirmed", "Unknown"),
   ("Unconfirmed", "Unknown"),
   ("unknown", "Unknown")]

/-- The single-quote character (U+0027), written by code point. -/
def quoteS : String := ⟨[Char.ofNat 39]⟩

/-- normalize_species, in source order: null/empty, invalidity terms, the
nested size-description filter, the ordered substring dict, then fuzzy. -/
def normalize_species (ext : Matcher) (cutoff : Nat) (v : Val) : String :=
  if v.isna then "Unknown"
  else
    let sp := pyStrip (pyStr v)
    if sp = "" then "Unknown"
    else if invalid_terms.any (fun term => containsSub (pyLower sp) term) then
      "Unknown"
    else if (containsSub sp quoteS || containsSub (pyLower sp) "m" ||
             !containsSub (pyLower sp) "shark") &&
            !containsSub (pyLower sp) "shark" then
      "Unknown"
    else
      match name_mappings.find? (fun p => containsSub (pyLower sp) p.1) with
      | some p => p.2
      | none =>
        match ext sp shark_species cutoff with
        | some m => m
        | none => "Unknown"

/-- clean_species: source column is the trailing-space variant when present
(then dropped afterwards), else the plain name (KeyError when absent too);
output always lands in Species. -/
def clean_species (ext : Matcher) (cutoff : Nat) (t : Table) : Option Table :=
  if "Species " ∈ t.cols then
    some (dropColsT ["Species "] (setColByRow "Species"
      (fun r => .s (normalize_species ext cutoff (r "Species "))) t))
  else if "Species" ∈ t.cols then
    some (setColByRow "Species"
      (fun r => .s (normalize_species ext cutoff (r "Species"))) t)
  else none

/-! ### Stage: clean_injury -/

/-- categorize_body_part: the ordered keyword groups over str(injury)
lowercased (so a missing cell is matched as the text nan). -/
def categorize_body_part (v : Val) : String :=
  let inj := pyLower (pyStr v)
  if containsSub inj "leg" || containsSub inj "thigh" || containsSub inj "calf" ||
     containsSub inj "foot" then "Leg / Foot"
  else if containsSub inj "arm" || containsSub inj "bicep" ||
          containsSub inj "wrist" then "Arm"
  else if containsSub inj "hand" || containsSub inj "finger" then "Hand / Fingers"
  else if containsSub inj "shoulder" then "Shoulder"
  else if containsSub inj "abdomen" || containsSub inj "stomach" ||
          containsSub inj "torso" || containsSub inj "body" then "Body / Abdomen"
  else if containsSub inj "head" || containsSub inj "face" ||
          containsSub inj "neck" then "Head / Neck"
  else "Unspecified / Multiple"

/-- clean_injury: reads the Injury column (KeyError when absent, so `none`),
adds Body Part, then drops Injury (only the drop ignores absence). -/
def clean_injury (t : Table) : Option Table :=
  if "Injury" ∈ t.cols then
    some (dropColsT ["Injury"]
      (setColByRow "Body Part" (fun r => .s (categorize_body_part (r "Injury"))) t))
  else none

/-! ### Stage: clean_fatal -/

/-- The replace dict of clean_fatal. -/
def fatalMap : List (Val × Val) :=
  [(.s "Y", .s "Yes"), (.s "Y X 2", .s "Yes"), (.s "F", .s "Yes"),
   (.s "N", .s "No"), (.s "NQ", .s "No")]

/-- The Fatal cell after fillna with the empty string, strip and upper
(non-strings become NaN), and the dict replace. -/
def fatalPre (v : Val) : Val :=
  replaceDict fatalMap (upperV (stripV (if v.isna then .s "" else v)))

/-- Per-cell transform of clean_fatal: fatalPre, then the closing lambda
sending everything outside Yes and No to Unknown. -/
def gFatal (v : Val) : Val :=
  if fatalPre v = .s "Yes" ∨ fatalPre v = .s "No" then fatalPre v else .s "Unknown"

/-- clean_fatal. -/
def clean_fatal (t : Table) : Option Table := mapCol "Fatal Y/N" gFatal t

/-! ### Pipeline -/

/-- clean_data: the fixed stage order of the source, threading the table;
any stage error aborts the run (pandas would raise). -/
def clean_data (ext : Matcher) (countryNames : List String) (t : Table) :
    Option Table := do
  let t1 := drop_useless_columns t
  let t2 ← clean_date t1
  let t3 ← clean_sex t2
  let t4 ← clean_age t3
  let t5 ← clean_type t4
  let t6 ← clean_country ext countryNames 60 t5
  let t7 ← clean_state ext 60 t6
  let t8 ← clean_activity ext t7
  let t9 ← clean_species ext 70 t8
  let t10 ← clean_injury t9
  clean_fatal t10

/-! ### Frame predicate and concrete tables used by the verification -/

/-- A stage touches only the columns in `S`: on success, the row count is
preserved and every column outside `S` reads back unchanged (same values in
the same row order).  Purity of each stage (the source copies its input) is
inherent in the value semantics of `Table`. -/
def framed (g : Table → Option Table) (S : List String) : Prop :=
  ∀ t t2, g t = some t2 → t2.rows.length = t.rows.length ∧
    ∀ c, c ∉ S → getCol t2 c = getCol t c

/-- A one-row table whose Age is the numeric but fractional text 23.5. -/
def tblC2 : Table := ⟨["Age"], [mkRow [("Age", .s "23.5")]]⟩

/-- A one-row table with a raw fatal marker Y. -/
def tblC4 : Table := ⟨["Fatal Y/N"], [mkRow [("Fatal Y/N", .s "Y")]]⟩

/-- A three-row table with a dirty Fatal column. -/
def tblC5 : Table :=
  ⟨["Fatal Y/N"],
   [mkRow [("Fatal Y/N", .s " y ")], mkRow [("Fatal Y/N", .i 2017)],
    mkRow [("Fatal Y/N", .na)]]⟩

/-- The cleaned tblC5. -/
def tblC5out : Table := (clean_fatal tblC5).getD ⟨[], []⟩

/-- The cleaned Fatal column of tblC5. -/
def valsC5 : List Val := (getCol tblC5out "Fatal Y/N").getD []

/-- A table with no Injury column. -/
def tblC6 : Table := ⟨["Sex"], [mkRow [("Sex", .s "M")]]⟩

/-- The spec example row: Date is the text Reported 2009, Year is zero. -/
def tblC8 : Table :=
  ⟨["Date", "Year"], [mkRow [("Date", .s "Reported 2009"), ("Year", .i 0)]]⟩

/-- A table with a Fatal column and an untouched Extra column. -/
def tblC9 : Table :=
  ⟨["Fatal Y/N", "Extra"],
   [mkRow [("Fatal Y/N", .s "Y"), ("Extra", .s "keep")]]⟩

/-- The cleaned tblC9. -/
def tblC9out : Table := (clean_fatal tblC9).getD ⟨[], []⟩

/-- A three-row table whose Fatal cells carry the female-sex token. -/
def tblC10 : Table :=
  ⟨["Fatal Y/N"],
   [mkRow [("Fatal Y/N", .s "F")], mkRow [("Fatal Y/N", .s "f")],
    mkRow [("Fatal Y/N", .s " f ")]]⟩

/-- The input of the species quote-heuristic example: the text 3 then a
single quote then the word shark. -/
def threeQuoteShark : String :=
  ⟨['3', Char.ofNat 39, ' ', 's', 'h', 'a', 'r', 'k']⟩

/-! ## Theorems -/

/-! ### Character and string lemmas -/

theorem upPairs_good : ∀ p ∈ upPairs, upChar p.2 = p.2 ∧ pyWs p.2 = pyWs p.1 := by
  decide

theorem upChar_idem (c : Char) : upChar (upChar c) = upChar c := by
  cases h : upPairs.find? (fun p => p.1 == c) with
  | none =>
    have hc : upChar c = c := by unfold upChar; rw [h]
    rw [hc]
    exact hc
  | some p =>
    have hp : upChar c = p.2 := by unfold upChar; rw [h]
    have hm : p ∈ upPairs := List.mem_of_find?_eq_some h
    rw [hp]
    exact (upPairs_good p hm).1

theorem pyWs_upChar (c : Char) : pyWs (upChar c) = pyWs c := by
  cases h : upPairs.find? (fun p => p.1 == c) with
  | none =>
    have hc : upChar c = c := by unfold upChar; rw [h]
    rw [hc]
  | some p =>
    have hp : upChar c = p.2 := by unfold upChar; rw [h]
    have hm : p ∈ upPairs := List.mem_of_find?_eq_some h
    have he : p.1 = c := by simpa using List.find?_some h
    rw [hp, (upPairs_good p hm).2, he]

theorem dropWhile_head_false {p : Char → Bool} :
    ∀ {l : List Char} {a : Char} {t : List Char}, l.dropWhile p = a :: t → p a = false := by
  intro l
  induction l with
  | nil => intro a t h; simp [List.dropWhile] at h
  | cons b l2 ih =>
    intro a t h
    rw [List.dropWhile_cons] at h
    by_cases hb : p b = true
    · rw [if_pos hb] at h; exact ih h
    · rw [if_neg hb] at h
      cases h
      simpa using hb

theorem dropWhile_self {p : Char → Bool} (l : List Char) :
    (l.dropWhile p).dropWhile p = l.dropWhile p := by
  cases h : l.dropWhile p with
  | nil => rfl
  | cons a t =>
    have ha := dropWhile_head_false h
    rw [List.dropWhile_cons, ha]
    simp

theorem dropWhile_getLast? {p : Char → Bool} :
    ∀ (l : List Char), l.dropWhile p = [] ∨ (l.dropWhile p).getLast? = l.getLast?
  | [] => Or.inl rfl
  | a :: t => by
    by_cases ha : p a = true
    · rw [List.dropWhile_cons, if_pos ha]
      rcases dropWhile_getLast? t with h | h
      · exact Or.inl h
      · cases t with
        | nil => exact Or.inl (by simp)
        | cons b t2 => exact Or.inr (by rw [h, List.getLast?_cons_cons])
    · rw [List.dropWhile_cons, if_neg ha]
      exact Or.inr rfl

theorem stripL_idem (l : List Char) : stripL (stripL l) = stripL l := by
  unfold stripL
  have h1 : ((l.dropWhile pyWs).reverse.dropWhile pyWs).reverse.dropWhile pyWs
      = ((l.dropWhile pyWs).reverse.dropWhile pyWs).reverse := by
    cases hwr : ((l.dropWhile pyWs).reverse.dropWhile pyWs).reverse with
    | nil => rfl
    | cons a t =>
      have hga : ((l.dropWhile pyWs).reverse.dropWhile pyWs).getLast? = some a := by
        rw [← List.head?_reverse, hwr]
        rfl
      have ha : pyWs a = false := by
        rcases dropWhile_getLast? (p := pyWs) (l.dropWhile pyWs).reverse with h | h
        · rw [h] at hwr
          simp at hwr
        · rw [h, List.getLast?_reverse] at hga
          cases hu : l.dropWhile pyWs with
          | nil => rw [hu] at hga; cases hga
          | cons b s =>
            rw [hu] at hga
            simp at hga
            rw [← hga]
            exact dropWhile_head_false hu
      rw [List.dropWhile_cons, ha]
      simp
  rw [h1, List.reverse_reverse, dropWhile_self]

theorem dropWhile_map_upChar (m : List Char) :
    (m.map upChar).dropWhile pyWs = (m.dropWhile pyWs).map upChar := by
  induction m with
  | nil => rfl
  | cons a t ih =>
    rw [List.map_cons, List.dropWhile_cons, List.dropWhile_cons, pyWs_upChar]
    by_cases ha : pyWs a = true
    · rw [if_pos ha, if_pos ha, ih]
    · rw [if_neg ha, if_neg ha, List.map_cons]

theorem stripL_map_upChar (l : List Char) :
    stripL (l.map upChar) = (stripL l).map upChar := by
  unfold stripL
  rw [dropWhile_map_upChar, ← List.map_reverse, dropWhile_map_upChar,
      ← List.map_reverse]

theorem pyStrip_pyStrip (x : String) : pyStrip (pyStrip x) = pyStrip x := by
  show (⟨stripL (stripL x.data)⟩ : String) = ⟨stripL x.data⟩
  rw [stripL_idem]

theorem pyUpper_pyUpper (x : String) : pyUpper (pyUpper x) = pyUpper x := by
  show (⟨(x.data.map upChar).map upChar⟩ : String) = ⟨x.data.map upChar⟩
  rw [List.map_map]
  congr 1
  apply List.map_congr_left
  intro a _
  exact upChar_idem a

theorem pyStrip_pyUpper (x : String) : pyStrip (pyUpper x) = pyUpper (pyStrip x) := by
  show (⟨stripL (x.data.map upChar)⟩ : String) = ⟨(stripL x.data).map upChar⟩
  rw [stripL_map_upChar]

theorem pyStrip_pyUpper_pyStrip (x : String) :
    pyStrip (pyUpper (pyStrip x)) = pyUpper (pyStrip x) := by
  rw [pyStrip_pyUpper, pyStrip_pyStrip]

/-! ### Row and table combinator lemmas -/

theorem setIn_get (c : String) (v : Val) (r : String → Val) : setIn c v r c = v := by
  unfold setIn
  simp

theorem setIn_same (c : String) (v w : Val) (r : String → Val) :
    setIn c v (setIn c w r) = setIn c v r := by
  funext x
  unfold setIn
  by_cases hx : x = c <;> simp [hx]

theorem setIn_other {x c : String} (hx : x ≠ c) (v : Val) (r : String → Val) :
    setIn c v r x = r x := by
  unfold setIn
  simp [hx]

theorem mapCol_mk_some (c : String) (g : Val → Val) (cols : List String)
    (rows : List (String → Val)) (h : c ∈ cols) :
    mapCol c g ⟨cols, rows⟩ = some ⟨cols, rows.map (fun r => setIn c (g (r c)) r)⟩ := by
  unfold mapCol
  rw [if_pos h]

theorem mapCol_mk_none (c : String) (g : Val → Val) (cols : List String)
    (rows : List (String → Val)) (h : c ∉ cols) :
    mapCol c g ⟨cols, rows⟩ = none := by
  unfold mapCol
  rw [if_neg h]

theorem mapCol_idem (c : String) (g : Val → Val) (gg : ∀ v, g (g v) = g v)
    (t : Table) : (mapCol c g t).bind (mapCol c g) = mapCol c g t := by
  obtain ⟨cols, rows⟩ := t
  by_cases h : c ∈ cols
  · rw [mapCol_mk_some c g cols rows h]
    show mapCol c g ⟨cols, rows.map (fun r => setIn c (g (r c)) r)⟩ = _
    rw [mapCol_mk_some c g cols _ h]
    have hu : ∀ r : String → Val,
        setIn c (g ((setIn c (g (r c)) r) c)) (setIn c (g (r c)) r)
          = setIn c (g (r c)) r := by
      intro r
      rw [setIn_get, gg, setIn_same]
    simp only [List.map_map]
    have hcomp : (fun r => setIn c (g (r c)) r) ∘ (fun r => setIn c (g (r c)) r)
        = fun r => setIn c (g (r c)) r := by
      funext r
      exact hu r
    rw [hcomp]
  · rw [mapCol_mk_none c g cols rows h]
    rfl

/-! ### Per-cell idempotence of the categorical normalizers -/

theorem typeMap_vals_stable : ∀ p ∈ typeMap, gType p.2 = p.2 := by decide

theorem gType_idem (v : Val) : gType (gType v) = gType v := by
  cases h : typeMap.find? (fun p => decide (p.1 = v)) with
  | none =>
    have h1 : gType v = v := by unfold gType replaceDict; rw [h]
    rw [h1]
    exact h1
  | some p =>
    have h1 : gType v = p.2 := by unfold gType replaceDict; rw [h]
    have hm : p ∈ typeMap := List.mem_of_find?_eq_some h
    rw [h1]
    exact typeMap_vals_stable p hm

theorem gSex_na : gSex .na = .na := by decide

theorem gSex_idem (v : Val) : gSex (gSex v) = gSex v := by
  cases v with
  | na => rw [gSex_na, gSex_na]
  | i n =>
    have h1 : gSex (.i n) = .na := rfl
    rw [h1, gSex_na]
  | f q =>
    have h1 : gSex (.f q) = .na := rfl
    rw [h1, gSex_na]
  | s x =>
    by_cases hdot : pyUpper (pyStrip x) = "."
    · have h1 : gSex (.s x) = .na := by
        unfold gSex
        simp only [stripV, upperV, hdot]
        rfl
      rw [h1, gSex_na]
    · have hne : upperV (stripV (Val.s x)) ≠ Val.s "." := by
        simp only [stripV, upperV]
        intro hc
        exact hdot (Val.s.inj hc)
      cases hfind : sexMap.find? (fun p => decide (p.1 = Val.s (pyUpper (pyStrip x)))) with
      | some p =>
        have h1 : gSex (.s x) = p.2 := by
          unfold gSex replaceDict
          rw [if_neg hne]
          simp only [stripV, upperV]
          rw [hfind]
        have hm : p ∈ sexMap := List.mem_of_find?_eq_some hfind
        rw [h1]
        fin_cases hm <;> decide
      | none =>
        have h1 : gSex (.s x) = .s (pyUpper (pyStrip x)) := by
          unfold gSex replaceDict
          rw [if_neg hne]
          simp only [stripV, upperV]
          rw [hfind]
        rw [h1]
        have hstrip : pyStrip (pyUpper (pyStrip x)) = pyUpper (pyStrip x) :=
          pyStrip_pyUpper_pyStrip x
        have hupper : pyUpper (pyUpper (pyStrip x)) = pyUpper (pyStrip x) :=
          pyUpper_pyUpper (pyStrip x)
        have hne2 : upperV (stripV (Val.s (pyUpper (pyStrip x)))) ≠ Val.s "." := by
          simp only [stripV, upperV, hstrip, hupper]
          intro hc
          exact hdot (Val.s.inj hc)
        unfold gSex replaceDict
        rw [if_neg hne2]
        simp only [stripV, upperV, hstrip, hupper]
        rw [hfind]

/-! ### Stability of the Age cell transform and Option-map machinery -/

theorem gAge_stable (v w : Val) (h : gAge v = some w) : gAge w = some w := by
  cases v with
  | na =>
    have hw : w = .na := by
      simpa [gAge, toNumericV, astypeInt64V] using h.symm
    rw [hw]
    rfl
  | i n =>
    have hw : w = .i n := by
      simpa [gAge, toNumericV, astypeInt64V] using h.symm
    rw [hw]
    rfl
  | f q =>
    by_cases hq : q.den = 1
    · have hw : w = .i q.num := by
        simpa [gAge, toNumericV, astypeInt64V, hq] using h.symm
      rw [hw]
      rfl
    · simp [gAge, toNumericV, astypeInt64V, hq] at h
  | s x =>
    cases hp : parseNum (pyStrip x) with
    | none =>
      have hw : w = .na := by
        simpa [gAge, toNumericV, astypeInt64V, hp] using h.symm
      rw [hw]
      rfl
    | some q =>
      by_cases hq : q.den = 1
      · have hw : w = .i q.num := by
          simpa [gAge, toNumericV, astypeInt64V, hp, hq] using h.symm
        rw [hw]
        rfl
      · simp [gAge, toNumericV, astypeInt64V, hp, hq] at h

theorem mapO_stable {α : Type} (g : α → Option α)
    (hg : ∀ a b, g a = some b → g b = some b) :
    ∀ (l l2 : List α), mapO g l = some l2 → mapO g l2 = some l2 := by
  intro l
  induction l with
  | nil =>
    intro l2 h
    have : l2 = [] := by simpa [mapO] using h.symm
    rw [this]
    rfl
  | cons a t ih =>
    intro l2 h
    unfold mapO at h
    cases hga : g a with
    | none => rw [hga] at h; simp at h
    | some b =>
      cases hgt : mapO g t with
      | none => rw [hga, hgt] at h; simp at h
      | some t2 =>
        rw [hga, hgt] at h
        simp only [Option.some.injEq] at h
        rw [← h]
        unfold mapO
        rw [hg a b hga, ih t2 hgt]

theorem ageRowFn_stable (r r2 : String → Val) (h : ageRowFn r = some r2) :
    ageRowFn r2 = some r2 := by
  unfold ageRowFn at h ⊢
  cases hga : gAge (r "Age") with
  | none => rw [hga] at h; simp at h
  | some w =>
    rw [hga] at h
    simp only [Option.map_some', Option.some.injEq] at h
    rw [← h, setIn_get, gAge_stable _ w hga, Option.map_some', setIn_same]

theorem clean_age_mk_eq (cols : List String) (rows : List (String → Val))
    (h : "Age" ∈ cols) :
    clean_age ⟨cols, rows⟩ = (mapO ageRowFn rows).map (Table.mk cols) := by
  unfold clean_age
  rw [if_pos h]

theorem clean_age_mk_none (cols : List String) (rows : List (String → Val))
    (h : "Age" ∉ cols) : clean_age ⟨cols, rows⟩ = none := by
  unfold clean_age
  rw [if_neg h]

theorem clean_age_idem (t : Table) : (clean_age t).bind clean_age = clean_age t := by
  obtain ⟨cols, rows⟩ := t
  by_cases h : "Age" ∈ cols
  · rw [clean_age_mk_eq cols rows h]
    cases hm : mapO ageRowFn rows with
    | none => rfl
    | some rows2 =>
      show clean_age ⟨cols, rows2⟩ = some ⟨cols, rows2⟩
      rw [clean_age_mk_eq cols rows2 h,
          mapO_stable ageRowFn ageRowFn_stable rows rows2 hm]
      rfl
  · rw [clean_age_mk_none cols rows h]
    rfl

/-! ### Frame lemmas: each stage touches only its own columns -/

theorem mapO_length {α β : Type} (g : α → Option β) :
    ∀ (l : List α) (l2 : List β), mapO g l = some l2 → l2.length = l.length := by
  intro l
  induction l with
  | nil =>
    intro l2 h
    have h0 : l2 = [] := by simpa [mapO] using h.symm
    rw [h0]
    rfl
  | cons a t ih =>
    intro l2 h
    unfold mapO at h
    cases hga : g a with
    | none => rw [hga] at h; simp at h
    | some b =>
      cases hgt : mapO g t with
      | none => rw [hga, hgt] at h; simp at h
      | some t2 =>
        rw [hga, hgt] at h
        simp only [Option.some.injEq] at h
        rw [← h]
        simp [ih t2 hgt]

theorem mapO_map_eq {α β γ : Type} (g : α → Option β) (pb : β → γ) (pa : α → γ)
    (hg : ∀ a b, g a = some b → pb b = pa a) :
    ∀ (l : List α) (l2 : List β), mapO g l = some l2 → l2.map pb = l.map pa := by
  intro l
  induction l with
  | nil =>
    intro l2 h
    have h0 : l2 = [] := by simpa [mapO] using h.symm
    rw [h0]
    rfl
  | cons a t ih =>
    intro l2 h
    unfold mapO at h
    cases hga : g a with
    | none => rw [hga] at h; simp at h
    | some b =>
      cases hgt : mapO g t with
      | none => rw [hga, hgt] at h; simp at h
      | some t2 =>
        rw [hga, hgt] at h
        simp only [Option.some.injEq] at h
        rw [← h]
        simp only [List.map_cons]
        rw [hg a b hga, ih t2 hgt]

theorem frame_mapColWith (c : String) (need : List String)
    (g : (String → Val) → Val) : framed (mapColWith c need g) [c] := by
  intro t t2 h
  obtain ⟨cols, rows⟩ := t
  unfold mapColWith at h
  by_cases hn : need.all (fun x => decide (x ∈ cols)) = true
  · rw [if_pos hn] at h
    simp only [Option.some.injEq] at h
    subst h
    constructor
    · simp
    · intro x hx
      have hxc : x ≠ c := by simpa using hx
      show getCol ⟨cols, rows.map _⟩ x = getCol ⟨cols, rows⟩ x
      unfold getCol
      by_cases hmem : x ∈ cols
      · rw [if_pos hmem, if_pos hmem]
        simp only [List.map_map]
        exact congrArg some (List.map_congr_left (fun r _ => setIn_other hxc _ _))
      · rw [if_neg hmem, if_neg hmem]
  · rw [if_neg hn] at h
    simp at h

theorem frame_mapCol (c : String) (g : Val → Val) : framed (mapCol c g) [c] := by
  intro t t2 h
  obtain ⟨cols, rows⟩ := t
  unfold mapCol at h
  by_cases hn : c ∈ cols
  · rw [if_pos hn] at h
    simp only [Option.some.injEq] at h
    subst h
    constructor
    · simp
    · intro x hx
      have hxc : x ≠ c := by simpa using hx
      show getCol ⟨cols, rows.map _⟩ x = getCol ⟨cols, rows⟩ x
      unfold getCol
      by_cases hmem : x ∈ cols
      · rw [if_pos hmem, if_pos hmem]
        simp only [List.map_map]
        exact congrArg some (List.map_congr_left (fun r _ => setIn_other hxc _ _))
      · rw [if_neg hmem, if_neg hmem]
  · rw [if_neg hn] at h
    simp at h

theorem ageRowFn_other (x : String) (hx : x ≠ "Age") (r r2 : String → Val)
    (h : ageRowFn r = some r2) : r2 x = r x := by
  unfold ageRowFn at h
  cases hga : gAge (r "Age") with
  | none => rw [hga] at h; simp at h
  | some w =>
    rw [hga] at h
    simp only [Option.map_some', Option.some.injEq] at h
    rw [← h]
    exact setIn_other hx _ _

theorem frame_clean_age : framed clean_age ["Age"] := by
  intro t t2 h
  obtain ⟨cols, rows⟩ := t
  by_cases hA : "Age" ∈ cols
  · rw [clean_age_mk_eq cols rows hA] at h
    cases hm : mapO ageRowFn rows with
    | none => rw [hm] at h; simp at h
    | some rows2 =>
      rw [hm] at h
      simp only [Option.map_some', Option.some.injEq] at h
      subst h
      constructor
      · simpa using mapO_length ageRowFn rows rows2 hm
      · intro x hx
        have hxc : x ≠ "Age" := by simpa using hx
        show getCol ⟨cols, rows2⟩ x = getCol ⟨cols, rows⟩ x
        unfold getCol
        by_cases hmem : x ∈ cols
        · rw [if_pos hmem, if_pos hmem]
          exact congrArg some
            (mapO_map_eq ageRowFn _ _ (fun r r2 hr => ageRowFn_other x hxc r r2 hr)
              rows rows2 hm)
        · rw [if_neg hmem, if_neg hmem]
  · rw [clean_age_mk_none cols rows hA] at h
    simp at h

theorem mem_dateCols {x : String} (cols : List String)
    (h1 : x ≠ "Date") (h2 : x ≠ "Year") (h3 : x ≠ "Month") (h4 : x ≠ "Fixed Year") :
    (x ∈ dateCols cols) ↔ x ∈ cols := by
  unfold dateCols
  constructor
  · intro hx
    rw [List.mem_map] at hx
    obtain ⟨d, hd, hfd⟩ := hx
    rw [List.mem_filter] at hd
    obtain ⟨hd1, _⟩ := hd
    by_cases hdf : d = "Fixed Year"
    · rw [if_pos hdf] at hfd
      exact absurd hfd.symm h2
    · rw [if_neg hdf] at hfd
      subst hfd
      rw [List.mem_append] at hd1
      rcases hd1 with hm | hm
      · by_cases hM : "Month" ∈ cols
        · rw [if_pos hM] at hm
          exact hm
        · rw [if_neg hM] at hm
          rw [List.mem_append] at hm
          rcases hm with hm | hm
          · exact hm
          · simp at hm
            exact absurd hm h3
      · by_cases hFY :
            "Fixed Year" ∈ (if "Month" ∈ cols then cols else cols ++ ["Month"])
        · rw [if_pos hFY] at hm
          simp at hm
        · rw [if_neg hFY] at hm
          simp at hm
          exact absurd hm h4
  · intro hx
    rw [List.mem_map]
    refine ⟨x, ?_, ?_⟩
    · rw [List.mem_filter]
      constructor
      · rw [List.mem_append]
        left
        by_cases hM : "Month" ∈ cols
        · rw [if_pos hM]
          exact hx
        · rw [if_neg hM]
          rw [List.mem_append]
          left
          exact hx
      · simp [h1, h2]
    · rw [if_neg h4]

theorem dateRowFn_other (x : String) (h2 : x ≠ "Year") (h3 : x ≠ "Month")
    (h4 : x ≠ "Fixed Year") (r r2 : String → Val) (h : dateRowFn r = some r2) :
    r2 x = r x := by
  unfold dateRowFn at h
  cases hc : astypeInt64V (fixedYearRaw (r "Year") (r "Date")) with
  | none => rw [hc] at h; simp at h
  | some fy =>
    rw [hc] at h
    simp only [Option.map_some', Option.some.injEq] at h
    rw [← h, setIn_other h3, setIn_other h2, setIn_other h4]

theorem frame_clean_date : framed clean_date ["Date", "Year", "Month", "Fixed Year"] := by
  intro t t2 h
  obtain ⟨cols, rows⟩ := t
  unfold clean_date at h
  by_cases hDY : "Date" ∈ cols ∧ "Year" ∈ cols
  · rw [if_pos hDY] at h
    cases hm : mapO dateRowFn rows with
    | none => rw [hm] at h; simp at h
    | some rows2 =>
      rw [hm] at h
      simp only [Option.map_some', Option.some.injEq] at h
      subst h
      constructor
      · simpa using mapO_length dateRowFn rows rows2 hm
      · intro x hx
        simp only [List.mem_cons, List.not_mem_nil, or_false, not_or] at hx
        obtain ⟨h1, h2, h3, h4⟩ := hx
        show getCol ⟨dateCols cols, rows2⟩ x = getCol ⟨cols, rows⟩ x
        unfold getCol
        have hmem := mem_dateCols cols h1 h2 h3 h4
        by_cases hx2 : x ∈ cols
        · rw [if_pos (hmem.mpr hx2), if_pos hx2]
          exact congrArg some
            (mapO_map_eq dateRowFn _ _
              (fun r r2 hr => dateRowFn_other x h2 h3 h4 r r2 hr) rows rows2 hm)
        · rw [if_neg (fun hc => hx2 (hmem.mp hc)), if_neg hx2]
  · rw [if_neg hDY] at h
    simp at h

theorem getCol_setColByRow_other {x c : String} (hx : x ≠ c)
    (g : (String → Val) → Val) (t : Table) :
    getCol (setColByRow c g t) x = getCol t x := by
  obtain ⟨cols, rows⟩ := t
  unfold setColByRow getCol
  by_cases hc : c ∈ cols
  · rw [if_pos hc]
    by_cases hmem : x ∈ cols
    · rw [if_pos hmem, if_pos hmem]
      simp only [List.map_map]
      exact congrArg some (List.map_congr_left (fun r _ => setIn_other hx _ _))
    · rw [if_neg hmem, if_neg hmem]
  · rw [if_neg hc]
    have hxmem : (x ∈ cols ++ [c]) ↔ x ∈ cols := by simp [hx]
    by_cases hmem : x ∈ cols
    · rw [if_pos (hxmem.mpr hmem), if_pos hmem]
      simp only [List.map_map]
      exact congrArg some (List.map_congr_left (fun r _ => setIn_other hx _ _))
    · rw [if_neg (fun hc2 => hmem (hxmem.mp hc2)), if_neg hmem]

theorem getCol_dropColsT {x : String} {cs : List String} (hx : x ∉ cs) (t : Table) :
    getCol (dropColsT cs t) x = getCol t x := by
  obtain ⟨cols, rows⟩ := t
  unfold dropColsT getCol
  have hiff : (x ∈ cols.filter (fun c => decide (c ∉ cs))) ↔ x ∈ cols := by
    simp [List.mem_filter, hx]
  by_cases hmem : x ∈ cols
  · rw [if_pos (hiff.mpr hmem), if_pos hmem]
  · rw [if_neg (fun hc => hmem (hiff.mp hc)), if_neg hmem]

theorem setColByRow_rows_length (c : String) (g : (String → Val) → Val)
    (t : Table) : (setColByRow c g t).rows.length = t.rows.length := by
  unfold setColByRow
  simp

theorem frame_clean_species (ext : Matcher) (cutoff : Nat) :
    framed (clean_species ext cutoff) ["Species", "Species "] := by
  intro t t2 h
  unfold clean_species at h
  by_cases hsp : "Species " ∈ t.cols
  · rw [if_pos hsp] at h
    simp only [Option.some.injEq] at h
    subst h
    constructor
    · exact setColByRow_rows_length _ _ t
    · intro x hx
      simp only [List.mem_cons, List.not_mem_nil, or_false, not_or] at hx
      obtain ⟨hx1, hx2⟩ := hx
      rw [getCol_dropColsT (by simp [hx2]) _, getCol_setColByRow_other hx1]
  · rw [if_neg hsp] at h
    by_cases hs2 : "Species" ∈ t.cols
    · rw [if_pos hs2] at h
      simp only [Option.some.injEq] at h
      subst h
      constructor
      · exact setColByRow_rows_length _ _ t
      · intro x hx
        simp only [List.mem_cons, List.not_mem_nil, or_false, not_or] at hx
        obtain ⟨hx1, _⟩ := hx
        rw [getCol_setColByRow_other hx1]
    · rw [if_neg hs2] at h
      simp at h

theorem frame_clean_injury : framed clean_injury ["Injury", "Body Part"] := by
  intro t t2 h
  unfold clean_injury at h
  by_cases hI : "Injury" ∈ t.cols
  · rw [if_pos hI] at h
    simp only [Option.some.injEq] at h
    subst h
    constructor
    · exact setColByRow_rows_length _ _ t
    · intro x hx
      simp only [List.mem_cons, List.not_mem_nil, or_false, not_or] at hx
      obtain ⟨hx1, hx2⟩ := hx
      rw [getCol_dropColsT (by simp [hx1]) _, getCol_setColByRow_other hx2]
  · rw [if_neg hI] at h
    simp at h

theorem frame_drop_useless :
    framed (fun t => some (drop_useless_columns t)) uselessCols := by
  intro t t2 h
  simp only [Option.some.injEq] at h
  subst h
  exact ⟨rfl, fun x hx => getCol_dropColsT hx t⟩

/-! ### Closed-set lemma for the Fatal cell -/

theorem gFatal_closed (v : Val) :
    gFatal v = .s "Yes" ∨ gFatal v = .s "No" ∨ gFatal v = .s "Unknown" := by
  unfold gFatal
  by_cases h : fatalPre v = Val.s "Yes" ∨ fatalPre v = Val.s "No"
  · rw [if_pos h]
    rcases h with h | h
    · exact Or.inl h
    · exact Or.inr (Or.inl h)
  · rw [if_neg h]
    exact Or.inr (Or.inr rfl)

/-! ### Claim C1 -/

/-- C1 counterexample: with a matcher that finds no candidate at or above
the cutoff, an input carrying surrounding whitespace is returned stripped,
not as the original string. -/
theorem C1_counterexample :
    match_country extNone [] 60 (Val.s " Xyzland ") = Val.s "Xyzland" ∧
      (" Xyzland " : String) ≠ "Xyzland" := by
  decide

/-- C1 (amended): when the fuzzy matcher finds no vocabulary candidate at
or above the score cutoff, match_country (outside its exact-alias table)
and match_state (on a non-missing country) return the stripped original
string: never null and never Unknown, but with surrounding whitespace
removed. -/
theorem C1_theorem :
    (∀ (ext : Matcher) (names : List String) (cutoff : Nat) (x : String),
        countryReplacements.find? (fun p => p.1 == pyStrip x) = none →
        ext (pyStrip x) names cutoff = none →
        match_country ext names cutoff (Val.s x) = Val.s (pyStrip x)) ∧
    (∀ (ext : Matcher) (cutoff : Nat) (x : String) (cv : Val),
        cv.isna = false →
        ext (pyStrip x) (stateMappingsGet cv) cutoff = none →
        match_state ext cutoff (Val.s x) cv = Val.s (pyStrip x)) := by
  constructor
  · intro ext names cutoff x hrep hext
    unfold match_country
    rw [if_neg (by simp [Val.isna])]
    simp only [pyStr]
    by_cases hemp : pyStrip x = ""
    · rw [if_pos hemp]
    · rw [if_neg hemp, hrep, hext]
  · intro ext cutoff x cv hcv hext
    unfold match_state
    have hor : ((Val.s x).isna || cv.isna) = false := by rw [hcv]; rfl
    rw [if_neg (by simp [hor])]
    simp only [pyStr]
    by_cases hemp : pyStrip x = ""
    · rw [if_pos hemp]
    · rw [if_neg hemp]
      by_cases hcs : stateMappingsGet cv = []
      · rw [if_pos hcs]
      · rw [if_neg hcs, hext]

/-- C1 witness: concrete no-match inputs with surrounding whitespace. -/
theorem C1_witness :
    match_country extNone [] 60 (Val.s " Nowhere Land ") = Val.s "Nowhere Land" ∧
      match_state extNone 60 (Val.s " Qld ") (Val.s "Australia") = Val.s "Qld" := by
  constructor
  · exact (C1_theorem.1 extNone [] 60 " Nowhere Land " (by decide) rfl).trans (by decide)
  · exact (C1_theorem.2 extNone 60 " Qld " (Val.s "Australia") (by decide) rfl).trans
      (by decide)

/-! ### Claim C2 -/

/-- C2: the code raises on a numeric but fractional Age text; the value
23.5 passes the numeric coercion and then the Int64 cast fails (modelled
as `none`), so clean_age does not complete for every input table. -/
theorem C2_theorem : clean_age tblC2 = none := by rfl

/-! ### Claim C3 -/

/-- C3 counterexample: the input reef lacks the substring shark, contains
neither a quote nor the letter m, and is still sent to Unknown, not to the
name-mapping step (which would give Reef Shark). -/
theorem C3_counterexample :
    normalize_species extNone 70 (Val.s "reef") = "Unknown" ∧
      ("Unknown" : String) ≠ "Reef Shark" := by
  decide

/-- C3 (amended): any species text whose stripped lowercase form lacks the
substring shark is sent to Unknown by the size-description filter,
whatever matcher and cutoff are used: the quote and letter-m tests never
change the outcome, because the inner test of the nested conditional
already holds whenever the outer one is reached with shark absent. -/
theorem C3_theorem (ext : Matcher) (cutoff : Nat) (x : String)
    (h : containsSub (pyLower (pyStrip x)) "shark" = false) :
    normalize_species ext cutoff (Val.s x) = "Unknown" := by
  unfold normalize_species
  rw [if_neg (by simp [Val.isna])]
  simp only [pyStr]
  split_ifs with hemp hinv hsize
  · rfl
  · rfl
  · rfl
  · exfalso
    apply hsize
    simp [h]

/-- C3 witness: even a matcher proposing Reef Shark cannot rescue reef. -/
theorem C3_witness :
    normalize_species (fun _ _ _ => some "Reef Shark") 70 (Val.s "reef") = "Unknown" :=
  C3_theorem (fun _ _ _ => some "Reef Shark") 70 "reef" (by decide)

/-! ### Claim C4 -/

/-- C4 counterexample: clean_fatal is not idempotent: one application maps
the Y cell to Yes, a second application uppercases Yes to YES and then
sends it to Unknown. -/
theorem C4_counterexample :
    (clean_fatal tblC4).bind (fun u => getCol u "Fatal Y/N") = some [Val.s "Yes"] ∧
      ((clean_fatal tblC4).bind clean_fatal).bind (fun u => getCol u "Fatal Y/N") =
        some [Val.s "Unknown"] := by
  constructor <;> rfl

/-- C4 (amended): clean_sex, clean_type and clean_age are idempotent
(re-running them on their own output is the identity), but clean_fatal is
not (see the counterexample), and clean_injury fails on its own output
because the Injury column has been dropped. -/
theorem C4_theorem :
    (∀ t, (clean_sex t).bind clean_sex = clean_sex t) ∧
      (∀ t, (clean_type t).bind clean_type = clean_type t) ∧
      (∀ t, (clean_age t).bind clean_age = clean_age t) ∧
      (∀ t t2, clean_injury t = some t2 → clean_injury t2 = none) :=
  ⟨fun t => mapCol_idem "Sex" gSex gSex_idem t,
   fun t => mapCol_idem "Type" gType gType_idem t,
   fun t => clean_age_idem t,
   fun t t2 h => by
     unfold clean_injury at h ⊢
     by_cases hI : "Injury" ∈ t.cols
     · rw [if_pos hI] at h
       simp only [Option.some.injEq] at h
       subst h
       rw [if_neg ?_]
       show "Injury" ∉ (dropColsT ["Injury"] _).cols
       unfold dropColsT
       simp [List.mem_filter]
     · rw [if_neg hI] at h
       simp at h⟩

/-- C4 witness: the idempotence components applied to a concrete table. -/
theorem C4_witness :
    clean_injury ((clean_injury ⟨["Injury"], [mkRow [("Injury", Val.s "leg")]]⟩).getD
      ⟨[], []⟩) = none :=
  C4_theorem.2.2.2 ⟨["Injury"], [mkRow [("Injury", Val.s "leg")]]⟩
    ((clean_injury ⟨["Injury"], [mkRow [("Injury", Val.s "leg")]]⟩).getD ⟨[], []⟩)
    (by rfl)

/-! ### Claim C5 -/

/-- C5: after clean_fatal, every value of the Fatal column is exactly Yes,
No or Unknown: whatever is not resolved to Yes or No by trimming,
uppercasing and the exact map becomes Unknown. -/
theorem C5_theorem (t t2 : Table) (h : clean_fatal t = some t2) (vs : List Val)
    (hvs : getCol t2 "Fatal Y/N" = some vs) :
    ∀ v ∈ vs, v = Val.s "Yes" ∨ v = Val.s "No" ∨ v = Val.s "Unknown" := by
  obtain ⟨cols, rows⟩ := t
  unfold clean_fatal mapCol at h
  by_cases hc : "Fatal Y/N" ∈ cols
  · rw [if_pos hc] at h
    simp only [Option.some.injEq] at h
    subst h
    unfold getCol at hvs
    rw [if_pos hc] at hvs
    simp only [Option.some.injEq] at hvs
    subst hvs
    intro v hv
    simp only [List.map_map, List.mem_map] at hv
    obtain ⟨r, _, hr⟩ := hv
    have hv2 : v = gFatal (r "Fatal Y/N") := by
      rw [← hr]
      exact setIn_get _ _ _
    rw [hv2]
    exact gFatal_closed _
  · rw [if_neg hc] at h
    simp at h

/-- C5 witness: a dirty three-row Fatal column lands inside the closed
three-value set. -/
theorem C5_witness :
    Val.s "Unknown" = Val.s "Yes" ∨ Val.s "Unknown" = Val.s "No" ∨
      Val.s "Unknown" = Val.s "Unknown" :=
  C5_theorem tblC5 tblC5out (by rfl) valsC5 (by rfl) (Val.s "Unknown") (by decide)

/-! ### Claim C6 -/

/-- C6 counterexample: on a table without an Injury column, clean_injury
does not complete (the column access fails), rather than tolerating the
absence. -/
theorem C6_counterexample : clean_injury tblC6 = none := by rfl

/-- C6 (amended): clean_injury succeeds exactly when the Injury column is
present; only the drop step tolerates absence, while the read that builds
the Body Part column fails on a missing Injury column. -/
theorem C6_theorem (t : Table) :
    (clean_injury t).isSome = true ↔ "Injury" ∈ t.cols := by
  unfold clean_injury
  by_cases h : "Injury" ∈ t.cols
  · simp [h]
  · simp [h]

/-! ### Claim C7 -/

/-- C7 counterexample: the quote heuristic does not fire for the size text
3-quote-shark (it contains the substring shark), so the result follows the
fuzzy matcher and need not be Unknown. -/
theorem C7_counterexample :
    normalize_species (fun _ _ _ => some "Mako Shark") 70 (Val.s threeQuoteShark) =
        "Mako Shark" ∧
      ("Mako Shark" : String) ≠ "Unknown" := by
  decide

/-- C7 (amended): for the input 3-quote-shark, clean_species reaches the
fuzzy-matching step (the quote heuristic cannot return Unknown when the
text contains shark, and no substring mapping applies), so the result is
the fuzzy match when one scores at or above the cutoff, else Unknown. -/
theorem C7_theorem (ext : Matcher) (cutoff : Nat) :
    normalize_species ext cutoff (Val.s threeQuoteShark) =
      (ext threeQuoteShark shark_species cutoff).getD "Unknown" := by
  unfold normalize_species
  rw [if_neg (by simp [Val.isna])]
  simp only [pyStr]
  rw [if_neg (by decide), if_neg (by decide), if_neg (by decide)]
  rw [show name_mappings.find?
        (fun p => containsSub (pyLower (pyStrip threeQuoteShark)) p.1) = none from
      by decide]
  rw [show pyStrip threeQuoteShark = threeQuoteShark from by decide]
  cases ext threeQuoteShark shark_species cutoff <;> rfl

/-! ### Claim C8 -/

/-- C8: a numeric Year of zero is treated as invalid and replaced by the
4-digit substring extracted from the Date text; in particular the row with
Date the text Reported 2009 and Year zero produces a null Month and Year
2009. -/
theorem C8_theorem :
    (∀ d : String,
        fixedYearRaw (Val.i 0) (Val.s d) = toNumericV (extractYearText (Val.s d))) ∧
      (clean_date tblC8).bind (fun t => getCol t "Year") = some [Val.i 2009] ∧
      (clean_date tblC8).bind (fun t => getCol t "Month") = some [Val.na] := by
  refine ⟨fun d => ?_, by rfl, by rfl⟩
  rfl

/-! ### Claim C9 -/

/-- C9: every cleaning stage touches only the columns it consumes or
produces: on success the row count is preserved and every other column
reads back unchanged, in order.  The stages are pure functions of the
input table (the source copies its input; the embedding is by value). -/
theorem C9_theorem :
    framed (fun t => some (drop_useless_columns t)) uselessCols ∧
      framed clean_date ["Date", "Year", "Month", "Fixed Year"] ∧
      framed clean_sex ["Sex"] ∧
      framed clean_age ["Age"] ∧
      framed clean_type ["Type"] ∧
      (∀ (ext : Matcher) (names : List String) (cutoff : Nat),
        framed (clean_country ext names cutoff) ["Country"]) ∧
      (∀ (ext : Matcher) (cutoff : Nat), framed (clean_state ext cutoff) ["State"]) ∧
      (∀ (ext : Matcher), framed (clean_activity ext) ["Activity"]) ∧
      (∀ (ext : Matcher) (cutoff : Nat),
        framed (clean_species ext cutoff) ["Species", "Species "]) ∧
      framed clean_injury ["Injury", "Body Part"] ∧
      framed clean_fatal ["Fatal Y/N"] :=
  ⟨frame_drop_useless, frame_clean_date, frame_mapCol "Sex" gSex, frame_clean_age,
   frame_mapCol "Type" gType,
   fun ext names cutoff => frame_mapCol "Country" (match_country ext names cutoff),
   fun ext cutoff =>
     frame_mapColWith "State" ["State", "Country"]
       (fun r => match_state ext cutoff (r "State") (r "Country")),
   fun ext => frame_mapCol "Activity" (fun v => .s (normalize_activity ext v)),
   fun ext cutoff => frame_clean_species ext cutoff,
   frame_clean_injury,
   frame_mapCol "Fatal Y/N" gFatal⟩

/-- C9 witness: clean_fatal leaves an Extra column and the row count of a
concrete table unchanged. -/
theorem C9_witness :
    getCol tblC9out "Extra" = getCol tblC9 "Extra" ∧
      tblC9out.rows.length = tblC9.rows.length := by
  have h := C9_theorem.2.2.2.2.2.2.2.2.2.2 tblC9 tblC9out (by rfl)
  exact ⟨h.2 "Extra" (by decide), h.1⟩

/-! ### Claim C10 -/

/-- C10: clean_fatal maps the cell F, and via trimming and uppercasing
also f and whitespace-padded variants, to Yes. -/
theorem C10_theorem :
    (clean_fatal tblC10).bind (fun u => getCol u "Fatal Y/N") =
      some [Val.s "Yes", Val.s "Yes", Val.s "Yes"] := by
  rfl

end SharkAttack
